import Mathlib

/-!
# TEJ protocol framing engine: a shallow embedding of `tej_protoc/protocol.py`

This file embeds the framing engine of the `tej-protoc` repository:

* `SocReader.read_bytes` — the exact-size chunked stream reader;
* `FrameReader` — the frame decoder (`read_status`, `read_protocol_version`,
  `count_number_of_files`, `read_file`, `read_files`, `read_message`, `read`);
* `BytesBuilder` — the frame encoder (`__init__`, `set_protocol_version`,
  `add_file`, `set_message`, `__add_status__`, `__add_protocol_version__`,
  `__add_files__`, `__add_message__`, `bytes`).

Bytes are modelled as `Nat` (with explicit range guards where Python's
`bytearray.append` / `int.to_bytes` would raise), Python `str` values as lists
of Unicode code points, and Python exceptions as an explicit error type.
The `file.File` value object, the `ResponseCallback` sink and the exception
classes are imported by `protocol.py` from sibling modules that are not part
of the sources; they are modelled from the spec where noted.
-/

namespace TejProtoc

/-- Modelled from the spec: the exception taxonomy of the missing
`tej_protoc/exceptions.py` module (`ConnectionClosed`, `ProtocolException`,
`InvalidStatusCode`, `InvalidProtocolVersion`), extended with the Python
built-in `UnicodeDecodeError` that `bytes.decode()` raises in
`FrameReader.read_file` on malformed UTF-8. -/
inductive ProtoError where
  | connectionClosed
  | protocolException
  | invalidStatusCode
  | invalidProtocolVersion
  | unicodeDecodeError
  deriving DecidableEq, Repr

/-- Modelled from the spec: the `file.File` value object, "FileEntry { name:
text, data: byte sequence }".  `name` is a Python `str`, i.e. a sequence of
Unicode code points; `data` is a byte sequence. -/
structure File where
  name : List Nat
  data : List Nat
  deriving DecidableEq, Repr

/-- Big-endian bytes of `n`, `k` bytes wide: `n.to_bytes(k, byteorder='big')`
without the overflow check (see `to_bytes`). -/
def natToBEBytes : Nat → Nat → List Nat
  | 0, _ => []
  | k + 1, n => natToBEBytes k (n / 256) ++ [n % 256]

/-- Python `n.to_bytes(k, byteorder='big')`: raises `OverflowError` (here
`none`) unless `0 ≤ n < 256 ^ k`. -/
def to_bytes (k n : Nat) : Option (List Nat) :=
  if n < 256 ^ k then some (natToBEBytes k n) else none

/-- Python `int.from_bytes(bs, byteorder='big')`. -/
def int_from_bytes (bs : List Nat) : Nat :=
  bs.foldl (fun acc b => acc * 256 + b) 0

/-- UTF-8 encoding of one Unicode code point (as produced by Python
`bytes(s, 'utf-8')` for each character of `s`). -/
def utf8EncodeChar (c : Nat) : List Nat :=
  if c < 0x80 then [c]
  else if c < 0x800 then
    [0xC0 + c / 64, 0x80 + c % 64]
  else if c < 0x10000 then
    [0xE0 + c / 4096, 0x80 + c / 64 % 64, 0x80 + c % 64]
  else
    [0xF0 + c / 262144, 0x80 + c / 4096 % 64, 0x80 + c / 64 % 64, 0x80 + c % 64]

/-- Python `bytes(s, 'utf-8')` on a string with code points `cs`. -/
def utf8Encode (cs : List Nat) : List Nat :=
  (cs.map utf8EncodeChar).flatten

/-- Is `b` a UTF-8 continuation byte (`0x80 ≤ b ≤ 0xBF`)? -/
def isCont (b : Nat) : Bool :=
  0x80 ≤ b && b ≤ 0xBF

/-- One strict UTF-8 sequence at the head of `bs`: the decoded code point and
the number of bytes consumed, or `none` on a malformed or truncated sequence.
Follows the standard UTF-8 byte-range table (RFC 3629): the second byte of an
`E0`/`ED`/`F0`/`F4` lead is restricted, rejecting overlong forms, surrogates
and code points above `0x10FFFF`. -/
def utf8DecodeStep (bs : List Nat) : Option (Nat × Nat) :=
  match bs with
  | [] => none
  | b :: rest =>
    let b2 := rest.getD 0 0
    let b3 := rest.getD 1 0
    let b4 := rest.getD 2 0
    if b < 0x80 then some (b, 1)
    else if b < 0xC2 then none
    else if b ≤ 0xDF then
      if 1 ≤ rest.length ∧ isCont b2 then
        some ((b - 0xC0) * 64 + (b2 - 0x80), 2)
      else none
    else if b ≤ 0xEF then
      if 2 ≤ rest.length ∧
          (if b = 0xE0 then 0xA0 ≤ b2 ∧ b2 ≤ 0xBF
           else if b = 0xED then 0x80 ≤ b2 ∧ b2 ≤ 0x9F
           else isCont b2 = true) ∧ isCont b3 then
        some ((b - 0xE0) * 4096 + (b2 - 0x80) * 64 + (b3 - 0x80), 3)
      else none
    else if b ≤ 0xF4 then
      if 3 ≤ rest.length ∧
          (if b = 0xF0 then 0x90 ≤ b2 ∧ b2 ≤ 0xBF
           else if b = 0xF4 then 0x80 ≤ b2 ∧ b2 ≤ 0x8F
           else isCont b2 = true) ∧ isCont b3 ∧ isCont b4 then
        some ((b - 0xF0) * 262144 + (b2 - 0x80) * 4096 + (b3 - 0x80) * 64
          + (b4 - 0x80), 4)
      else none
    else none

/-- The decoding loop behind `utf8Decode`.  `fuel` bounds the number of
decoded characters; every accepted sequence consumes at least one byte, so
`bs.length` characters always suffice and the fuel-exhausted branch is
unreachable from `utf8Decode`. -/
def utf8DecodeGo : Nat → List Nat → Option (List Nat)
  | _, [] => some []
  | 0, _ :: _ => none
  | fuel + 1, b :: rest =>
    match utf8DecodeStep (b :: rest) with
    | none => none
    | some (cp, consumed) =>
      (utf8DecodeGo fuel ((b :: rest).drop consumed)).map (cp :: ·)

/-- Python `bs.decode()` (strict UTF-8): `none` models `UnicodeDecodeError`. -/
def utf8Decode (bs : List Nat) : Option (List Nat) :=
  utf8DecodeGo bs.length bs

/-- The frame encoder state: `BytesBuilder`'s four instance attributes.
`status_code` and `protocol_version` are Python `int`s (unbounded, possibly
negative), hence `Int`. -/
structure BytesBuilder where
  status_code : Int
  protocol_version : Int
  files : List File
  message : Option (List Nat)
  deriving DecidableEq, Repr

/-- The constructor's range test exactly as written in the source:
`in_range = (status_code >= 0 or status_code <= 0b01111111)`. -/
def statusInRange (status_code : Int) : Bool :=
  decide (status_code ≥ 0) || decide (status_code ≤ 0b01111111)

/-- `BytesBuilder.__init__(status_code)`: raises `InvalidStatusCode` when the
(`or`-composed) range test fails, otherwise stores the status, protocol
version 1, no files and no message. -/
def BytesBuilder.init (status_code : Int) : Except ProtoError BytesBuilder :=
  if !statusInRange status_code then
    .error .invalidStatusCode
  else
    .ok ⟨status_code, 1, [], none⟩

/-- The version range test exactly as written in the source:
`not (version >= 0 or version <= 256)` guards the raise. -/
def versionInRange (version : Int) : Bool :=
  decide (version ≥ 0) || decide (version ≤ 256)

/-- `BytesBuilder.set_protocol_version(version)`. -/
def BytesBuilder.set_protocol_version (b : BytesBuilder) (version : Int) :
    Except ProtoError BytesBuilder :=
  if !versionInRange version then
    .error .invalidProtocolVersion
  else
    .ok { b with protocol_version := version }

/-- `BytesBuilder.add_file(filename, data)`: appends `File(filename, data)`. -/
def BytesBuilder.add_file (b : BytesBuilder) (filename data : List Nat) :
    BytesBuilder :=
  { b with files := b.files ++ [⟨filename, data⟩] }

/-- `BytesBuilder.set_message(message)`: stores the message bytes. -/
def BytesBuilder.set_message (b : BytesBuilder) (message : List Nat) :
    BytesBuilder :=
  { b with message := some message }

/-- Python `bytearray.append(x)`: raises `ValueError` (here `none`) unless
`0 ≤ x < 256`. -/
def appendByte (df : List Nat) (x : Int) : Option (List Nat) :=
  if 0 ≤ x ∧ x < 256 then some (df ++ [x.toNat]) else none

/-- `BytesBuilder.__add_status__`: appends `self._status_code | 0b10000000`.
For a negative Python int the bitwise-or is negative (two's complement), so
`bytearray.append` raises `ValueError`; for a non-negative one it is the
`Nat` bitwise-or. -/
def BytesBuilder.addStatus (b : BytesBuilder) (df : List Nat) :
    Option (List Nat) :=
  if 0 ≤ b.status_code then
    appendByte df (((b.status_code.toNat) ||| 0b10000000 : Nat) : Int)
  else
    none

/-- `BytesBuilder.__add_protocol_version__`: appends the version byte. -/
def BytesBuilder.addProtocolVersion (b : BytesBuilder) (df : List Nat) :
    Option (List Nat) :=
  appendByte df b.protocol_version

/-- The per-file body of the loop in `BytesBuilder.__add_files__`:
`len(file.name).to_bytes(2, 'big')` — the CHARACTER count of the name —
then the UTF-8 bytes of the name, then `len(file.data).to_bytes(8, 'big')`,
then the data. -/
def addOneFile (df : List Nat) (f : File) : Option (List Nat) := do
  let nl ← to_bytes 2 f.name.length
  let fl ← to_bytes 8 f.data.length
  some (df ++ nl ++ utf8Encode f.name ++ fl ++ f.data)

/-- `BytesBuilder.__add_files__`: the 8-byte file count, then each file. -/
def BytesBuilder.addFiles (b : BytesBuilder) (df : List Nat) :
    Option (List Nat) := do
  let cb ← to_bytes 8 b.files.length
  b.files.foldlM addOneFile (df ++ cb)

/-- `BytesBuilder.__add_message__`: `if self._message:` is Python truthiness,
so `None` and `b''` both yield length 0 and no body; appending an empty body
is a no-op, so both cases coincide with appending `message or b''`. -/
def BytesBuilder.addMessage (b : BytesBuilder) (df : List Nat) :
    Option (List Nat) := do
  let m := b.message.getD []
  let lb ← to_bytes 8 m.length
  some (df ++ lb ++ m)

/-- `BytesBuilder.bytes()`: builds a fresh local `dataframe` and runs the four
`__add_*__` steps in wire order. -/
def BytesBuilder.bytes (b : BytesBuilder) : Option (List Nat) := do
  let d1 ← b.addStatus []
  let d2 ← b.addProtocolVersion d1
  let d3 ← b.addFiles d2
  b.addMessage d3

/-! ## `SocReader`: the exact-size chunked stream reader

A socket is modelled as the list of chunks the transport will deliver, in
order.  `recv maxRead` hands over at most `maxRead` bytes of the head chunk,
pushing any leftover back; an exhausted stream (or an explicit empty chunk,
the peer-closed marker) yields the empty read that Python's `recv` reports
on a closed connection. -/

/-- The incoming byte stream as the transport chunks it. -/
abbrev SocStream := List (List Nat)

/-- `client.recv(maxRead)`: up to `maxRead` bytes of the head chunk; the
leftover of a partially consumed chunk stays at the front.  An exhausted
stream returns the empty bytes of a closed connection. -/
def recv (s : SocStream) (maxRead : Nat) : List Nat × SocStream :=
  match s with
  | [] => ([], [])
  | c :: rest =>
    let chunk := c.take maxRead
    let leftover := c.drop maxRead
    (chunk, if leftover.isEmpty then rest else leftover :: rest)

/-- `SocReader.__init__`: `if not max_buffer_size` replaces both `None` and
`0` by the 8 KiB default. -/
def socMaxBuffer (max_buffer_size : Option Nat) : Nat :=
  match max_buffer_size with
  | none => 8 * 1024
  | some v => if v = 0 then 8 * 1024 else v

/-- The `while bytes_in != size` loop of `SocReader.read_bytes`.  `fuel`
bounds the number of iterations; since every accepted chunk is non-empty,
`size` iterations always suffice, so `read_bytes` passes `fuel = size` and
the fuel-exhausted branch is unreachable. -/
def read_bytes_go (buffer_size : Nat) : Nat → Nat → SocStream →
    Option (List Nat × SocStream)
  | _, 0, s => some ([], s)
  | 0, _ + 1, _ => none
  | fuel + 1, size + 1, s =>
    let max_read := min (size + 1) buffer_size
    let r := recv s max_read
    if r.1.isEmpty then
      none
    else
      match read_bytes_go buffer_size fuel (size + 1 - r.1.length) r.2 with
      | none => none
      | some (rest, s') => some (r.1 ++ rest, s')

/-- `SocReader.read_bytes(client, size)`: reads exactly `size` bytes, in
chunks of at most `min(size, max_buffer_size)` bytes each; `none` models the
`ConnectionClosed` raised when a `recv` returns no bytes. -/
def read_bytes (max_buffer_size : Nat) (s : SocStream) (size : Nat) :
    Option (List Nat × SocStream) :=
  read_bytes_go (min size max_buffer_size) size size s

/-! ## `FrameReader`: the frame decoder

For the frame-level claims the stream is the flat byte sequence; reading `n`
bytes succeeds exactly when `n` bytes are left (`read_bytes` delivers the
first `n` bytes of a live stream and raises `ConnectionClosed` once the
stream is exhausted — proved below for the chunked reader). -/

/-- `soc_reader.read_bytes` at the frame level: the first `n` bytes of the
remaining stream, or `ConnectionClosed` when the stream is exhausted. -/
def readBytesF (n : Nat) (s : List Nat) :
    Except ProtoError (List Nat × List Nat) :=
  if n ≤ s.length then .ok (s.take n, s.drop n) else .error .connectionClosed

/-- `FrameReader.read_status`: one byte, split as `(byte >> 7, byte & 0x7F)`. -/
def read_status (s : List Nat) :
    Except ProtoError ((Nat × Nat) × List Nat) := do
  let (bs, s1) ← readBytesF 1 s
  let first_byte := bs.headD 0
  .ok ((first_byte >>> 7, first_byte &&& 0b01111111), s1)

/-- `FrameReader.read_protocol_version`: one byte. -/
def read_protocol_version (s : List Nat) :
    Except ProtoError (Nat × List Nat) := do
  let (bs, s1) ← readBytesF 1 s
  .ok (bs.headD 0, s1)

/-- `FrameReader.count_number_of_files`: 8 bytes, big-endian. -/
def count_number_of_files (s : List Nat) :
    Except ProtoError (Nat × List Nat) := do
  let (bs, s1) ← readBytesF 8 s
  .ok (int_from_bytes bs, s1)

/-- `FrameReader.read_file`: 2-byte name length, that many name bytes decoded
as UTF-8 text, 8-byte data length, that many data bytes. -/
def read_file (s : List Nat) :
    Except ProtoError ((List Nat × List Nat × Nat) × List Nat) := do
  let (lb, s1) ← readBytesF 2 s
  let filename_length := int_from_bytes lb
  let (nb, s2) ← readBytesF filename_length s1
  match utf8Decode nb with
  | none => .error .unicodeDecodeError
  | some filename => do
    let (flb, s3) ← readBytesF 8 s2
    let file_length := int_from_bytes flb
    let (file_data, s4) ← readBytesF file_length s3
    .ok ((filename, file_data, file_length), s4)

/-- The `for e in range(files_count)` loop of `FrameReader.read_files`. -/
def read_files_loop : Nat → List Nat →
    Except ProtoError (List File × List Nat)
  | 0, s => .ok ([], s)
  | n + 1, s => do
    let ((filename, file_data, _), s1) ← read_file s
    let (fs, s2) ← read_files_loop n s1
    .ok (⟨filename, file_data⟩ :: fs, s2)

/-- `FrameReader.read_files`: the file count, then that many files. -/
def read_files (s : List Nat) :
    Except ProtoError (List File × List Nat) := do
  let (files_count, s1) ← count_number_of_files s
  read_files_loop files_count s1

/-- `FrameReader.read_message`: 8-byte length; zero means no message. -/
def read_message (s : List Nat) :
    Except ProtoError (Option (List Nat) × List Nat) := do
  let (lb, s1) ← readBytesF 8 s
  let message_length := int_from_bytes lb
  if message_length = 0 then
    .ok (none, s1)
  else do
    let (m, s2) ← readBytesF message_length s1
    .ok (some m, s2)

/-- Modelled from the spec: the completion sink (`callbacks.ResponseCallback`,
not among the sources).  `FrameReader.read` assigns its `custom_status` and
`protocol_version` attributes and invokes `received(files, message)`;
`receivedCalls` logs those invocations. -/
structure ResponseCallback where
  custom_status : Nat
  protocol_version : Nat
  receivedCalls : List (List File × Option (List Nat))
  deriving DecidableEq, Repr

/-- `FrameReader.read(client, callback)`: validity bit, then field by field in
wire order, mutating the callback as the source does and logging the final
`callback.received(files, message)` call.  Returns the callback state, the
unconsumed stream suffix at the point of return, and the raised exception if
any.  (The `settimeout` calls touch only the socket's deadline, not the byte
stream, and are not modelled.) -/
def FrameReader.read (cb : ResponseCallback) (s : List Nat) :
    ResponseCallback × List Nat × Option ProtoError :=
  match read_status s with
  | .error e => (cb, s, some e)
  | .ok ((status, custom_status), s1) =>
    if status ≠ 1 then
      (cb, s1, some .protocolException)
    else
      let cb1 := { cb with custom_status := custom_status }
      match read_protocol_version s1 with
      | .error e => (cb1, s1, some e)
      | .ok (ver, s2) =>
        let cb2 := { cb1 with protocol_version := ver }
        match read_files s2 with
        | .error e => (cb2, s2, some e)
        | .ok (files, s3) =>
          match read_message s3 with
          | .error e => (cb2, s3, some e)
          | .ok (message, s4) =>
            ({ cb2 with
                receivedCalls := cb2.receivedCalls ++ [(files, message)] },
             s4, none)

/-! ## Basic facts about the byte-level helpers -/

theorem natToBEBytes_length (k n : Nat) : (natToBEBytes k n).length = k := by
  induction k generalizing n with
  | zero => rfl
  | succ k ih => simp [natToBEBytes, ih]

theorem int_from_bytes_append (xs ys : List Nat) :
    int_from_bytes (xs ++ ys) =
      ys.foldl (fun acc b => acc * 256 + b) (int_from_bytes xs) := by
  simp [int_from_bytes, List.foldl_append]

theorem int_from_bytes_natToBEBytes (k n : Nat) (h : n < 256 ^ k) :
    int_from_bytes (natToBEBytes k n) = n := by
  induction k generalizing n with
  | zero =>
    simp [pow_zero, Nat.lt_one_iff] at h
    simp [h, natToBEBytes, int_from_bytes]
  | succ k ih =>
    have hdiv : n / 256 < 256 ^ k := by
      rw [Nat.div_lt_iff_lt_mul (by norm_num)]
      calc n < 256 ^ (k + 1) := h
        _ = 256 ^ k * 256 := by ring
    simp only [natToBEBytes]
    rw [int_from_bytes_append, ih (n / 256) hdiv]
    simp only [List.foldl]
    omega

theorem to_bytes_eq {k n : Nat} (h : n < 256 ^ k) :
    to_bytes k n = some (natToBEBytes k n) := by
  simp [to_bytes, h]

theorem utf8EncodeChar_ascii {c : Nat} (h : c < 128) :
    utf8EncodeChar c = [c] := by
  simp [utf8EncodeChar, h]

theorem utf8Encode_ascii {cs : List Nat} (h : ∀ c ∈ cs, c < 128) :
    utf8Encode cs = cs := by
  induction cs with
  | nil => rfl
  | cons c cs ih =>
    have hc : c < 128 := h c (List.mem_cons_self c cs)
    have hcs : ∀ x ∈ cs, x < 128 := fun x hx => h x (List.mem_cons_of_mem c hx)
    simp [utf8Encode] at ih ⊢
    simp [utf8EncodeChar_ascii hc, ih hcs]

theorem utf8DecodeStep_ascii {c : Nat} (rest : List Nat) (h : c < 128) :
    utf8DecodeStep (c :: rest) = some (c, 1) := by
  simp [utf8DecodeStep, h]

theorem utf8DecodeGo_ascii {cs : List Nat} :
    ∀ fuel, cs.length ≤ fuel → (∀ c ∈ cs, c < 128) →
      utf8DecodeGo fuel cs = some cs := by
  induction cs with
  | nil => intro fuel _ _; cases fuel <;> rfl
  | cons c cs ih =>
    intro fuel hfuel h
    have hc : c < 128 := h c (List.mem_cons_self c cs)
    have hcs : ∀ x ∈ cs, x < 128 := fun x hx => h x (List.mem_cons_of_mem c hx)
    cases fuel with
    | zero => simp at hfuel
    | succ f =>
      have hf : cs.length ≤ f := by simpa using hfuel
      simp [utf8DecodeGo, utf8DecodeStep_ascii cs hc, ih f hf hcs]

theorem utf8Decode_ascii {cs : List Nat} (h : ∀ c ∈ cs, c < 128) :
    utf8Decode cs = some cs :=
  utf8DecodeGo_ascii cs.length le_rfl h

theorem readBytesF_exact {n : Nat} {xs : List Nat} (ys : List Nat)
    (h : xs.length = n) : readBytesF n (xs ++ ys) = .ok (xs, ys) := by
  subst h
  simp [readBytesF, List.take_left, List.drop_left]

theorem readBytesF_cons (x : Nat) (xs : List Nat) :
    readBytesF 1 (x :: xs) = .ok ([x], xs) := by
  simpa using @readBytesF_exact 1 [x] xs rfl

theorem ok_bind {ε α β : Type} (a : α) (f : α → Except ε β) :
    (Except.ok a : Except ε α) >>= f = f a := rfl

theorem error_bind {ε α β : Type} (e : ε) (f : α → Except ε β) :
    (Except.error e : Except ε α) >>= f = .error e := rfl

/-- The status byte arithmetic on the 7-bit custom status: forcing the MSB
with `| 0b10000000` adds 128, keeps the byte in range, makes bit 7 read back
as 1 and the low 7 bits read back unchanged. -/
theorem statusByte_facts :
    ∀ s : Nat, s < 128 →
      (s ||| 128) = s + 128 ∧ (s ||| 128) >>> 7 = 1 ∧
        (s ||| 128) &&& 0b01111111 = s := by
  have h : ∀ x : Fin 128,
      (x.val ||| 128) = x.val + 128 ∧ (x.val ||| 128) >>> 7 = 1 ∧
        (x.val ||| 128) &&& 0b01111111 = x.val := by decide
  intro s hs
  exact h ⟨s, hs⟩

/-! ## The wire image of a builder -/

/-- The serialized form of one file, as the loop in `__add_files__` emits it:
2-byte character count of the name, UTF-8 name bytes, 8-byte data length,
data. -/
def encFile (f : File) : List Nat :=
  natToBEBytes 2 f.name.length ++ utf8Encode f.name ++
    natToBEBytes 8 f.data.length ++ f.data

/-- The full wire frame of a builder, for the states where `bytes()`
succeeds. -/
def encFrame (b : BytesBuilder) : List Nat :=
  [b.status_code.toNat ||| 0b10000000] ++ [b.protocol_version.toNat] ++
    natToBEBytes 8 b.files.length ++ (b.files.map encFile).flatten ++
    natToBEBytes 8 (b.message.getD []).length ++ b.message.getD []

theorem addOneFile_enc {f : File} (df : List Nat)
    (hn : f.name.length < 256 ^ 2) (hd : f.data.length < 256 ^ 8) :
    addOneFile df f = some (df ++ encFile f) := by
  simp [addOneFile, to_bytes_eq hn, to_bytes_eq hd, encFile]

theorem foldlM_addOneFile {files : List File}
    (h : ∀ f ∈ files, f.name.length < 256 ^ 2 ∧ f.data.length < 256 ^ 8) :
    ∀ df : List Nat,
      files.foldlM addOneFile df = some (df ++ (files.map encFile).flatten) := by
  induction files with
  | nil => intro df; simp
  | cons f fs ih =>
    intro df
    have hf := h f (List.mem_cons_self f fs)
    have hfs : ∀ g ∈ fs, g.name.length < 256 ^ 2 ∧ g.data.length < 256 ^ 8 :=
      fun g hg => h g (List.mem_cons_of_mem f hg)
    simp only [List.foldlM_cons, addOneFile_enc df hf.1 hf.2]
    simp [ih hfs, List.append_assoc]

/-- On a builder whose fields are in wire range, `bytes()` succeeds and
produces exactly the concatenation of the status byte, version byte, file
section and message section. -/
theorem bytes_enc {b : BytesBuilder}
    (hs : 0 ≤ b.status_code) (hs' : b.status_code ≤ 127)
    (hv : 0 ≤ b.protocol_version) (hv' : b.protocol_version ≤ 255)
    (hf : ∀ f ∈ b.files, f.name.length < 256 ^ 2 ∧ f.data.length < 256 ^ 8)
    (hc : b.files.length < 256 ^ 8)
    (hm : (b.message.getD []).length < 256 ^ 8) :
    b.bytes = some (encFrame b) := by
  have hsn : b.status_code.toNat < 128 := by omega
  obtain ⟨hadd, _, _⟩ := statusByte_facts b.status_code.toNat hsn
  have hsb : (b.status_code.toNat ||| 128 : Nat) < 256 := by omega
  simp only [BytesBuilder.bytes, BytesBuilder.addStatus, if_pos hs, appendByte]
  rw [if_pos (by constructor <;> omega)]
  simp only [Option.bind_eq_bind, Option.some_bind, BytesBuilder.addProtocolVersion,
    appendByte]
  rw [if_pos ⟨hv, by omega⟩]
  simp only [Option.some_bind, BytesBuilder.addFiles, to_bytes_eq hc,
    Option.bind_eq_bind, Option.some_bind, foldlM_addOneFile hf]
  simp only [Option.some_bind, BytesBuilder.addMessage, to_bytes_eq hm,
    Option.bind_eq_bind, Option.some_bind]
  simp [encFrame, List.append_assoc, Int.toNat_lt']

/-! ## The decoder inverts the encoder (for ASCII file names) -/

theorem read_file_enc {f : File} (rest : List Nat)
    (ha : ∀ c ∈ f.name, c < 128) (hn : f.name.length < 256 ^ 2)
    (hd : f.data.length < 256 ^ 8) :
    read_file (encFile f ++ rest) = .ok ((f.name, f.data, f.data.length), rest) := by
  have h2 : ∀ ys, readBytesF 2 (natToBEBytes 2 f.name.length ++ ys) =
      .ok (natToBEBytes 2 f.name.length, ys) :=
    fun ys => readBytesF_exact ys (natToBEBytes_length 2 f.name.length)
  have h8 : ∀ ys, readBytesF 8 (natToBEBytes 8 f.data.length ++ ys) =
      .ok (natToBEBytes 8 f.data.length, ys) :=
    fun ys => readBytesF_exact ys (natToBEBytes_length 8 f.data.length)
  have hname : ∀ ys, readBytesF f.name.length (f.name ++ ys) = .ok (f.name, ys) :=
    fun ys => readBytesF_exact ys rfl
  have hdata : ∀ ys, readBytesF f.data.length (f.data ++ ys) = .ok (f.data, ys) :=
    fun ys => readBytesF_exact ys rfl
  simp [read_file, encFile, List.append_assoc, h2, h8, hname, hdata,
    int_from_bytes_natToBEBytes 2 f.name.length hn,
    int_from_bytes_natToBEBytes 8 f.data.length hd,
    utf8Encode_ascii ha, utf8Decode_ascii ha, ok_bind]

theorem read_files_loop_enc {files : List File} (rest : List Nat)
    (h : ∀ f ∈ files, (∀ c ∈ f.name, c < 128) ∧
      f.name.length < 256 ^ 2 ∧ f.data.length < 256 ^ 8) :
    read_files_loop files.length ((files.map encFile).flatten ++ rest) =
      .ok (files, rest) := by
  induction files generalizing rest with
  | nil => simp [read_files_loop]
  | cons f fs ih =>
    have hf := h f (List.mem_cons_self f fs)
    have hfs : ∀ g ∈ fs, (∀ c ∈ g.name, c < 128) ∧
        g.name.length < 256 ^ 2 ∧ g.data.length < 256 ^ 8 :=
      fun g hg => h g (List.mem_cons_of_mem f hg)
    simp only [List.map_cons, List.flatten_cons, List.length_cons,
      read_files_loop, List.append_assoc]
    rw [read_file_enc ((fs.map encFile).flatten ++ rest) hf.1 hf.2.1 hf.2.2]
    simp [ih rest hfs, ok_bind]

theorem read_message_enc {m : List Nat} (rest : List Nat)
    (hm : m.length < 256 ^ 8) :
    read_message (natToBEBytes 8 m.length ++ m ++ rest) =
      .ok (if m.length = 0 then none else some m, rest) := by
  have h8 : ∀ ys, readBytesF 8 (natToBEBytes 8 m.length ++ ys) =
      .ok (natToBEBytes 8 m.length, ys) :=
    fun ys => readBytesF_exact ys (natToBEBytes_length 8 m.length)
  have hmm : ∀ ys, readBytesF m.length (m ++ ys) = .ok (m, ys) :=
    fun ys => readBytesF_exact ys rfl
  by_cases hz : m.length = 0
  · have hnil : m = [] := List.length_eq_zero.mp hz
    subst hnil
    have h0 : ∀ ys, readBytesF 8 (natToBEBytes 8 0 ++ ys) =
        .ok (natToBEBytes 8 0, ys) :=
      fun ys => readBytesF_exact ys (natToBEBytes_length 8 0)
    simp [read_message, h0, ok_bind, int_from_bytes_natToBEBytes 8 0 (by positivity)]
  · simp [read_message, List.append_assoc, h8, hmm, ok_bind, hz,
      int_from_bytes_natToBEBytes 8 m.length hm]

/-- Decoding the wire image of an in-range builder with ASCII file names
succeeds, consumes exactly the frame, stores the custom status and version on
the callback and invokes `received` once, with the builder's files in order
and with its message, absent exactly when the encoded length was 0. -/
theorem read_enc {b : BytesBuilder} (cb : ResponseCallback)
    (hs : 0 ≤ b.status_code) (hs' : b.status_code ≤ 127)
    (hf : ∀ f ∈ b.files, (∀ c ∈ f.name, c < 128) ∧
      f.name.length < 256 ^ 2 ∧ f.data.length < 256 ^ 8)
    (hc : b.files.length < 256 ^ 8)
    (hm : (b.message.getD []).length < 256 ^ 8) :
    FrameReader.read cb (encFrame b) =
      ({ cb with
          custom_status := b.status_code.toNat,
          protocol_version := b.protocol_version.toNat,
          receivedCalls := cb.receivedCalls ++
            [(b.files, if (b.message.getD []).length = 0 then none
                       else some (b.message.getD []))] },
       [], none) := by
  have hsn : b.status_code.toNat < 128 := by omega
  obtain ⟨hadd, hshift, hand⟩ := statusByte_facts b.status_code.toNat hsn
  have hcount : ∀ ys, readBytesF 8 (natToBEBytes 8 b.files.length ++ ys) =
      .ok (natToBEBytes 8 b.files.length, ys) :=
    fun ys => readBytesF_exact ys (natToBEBytes_length 8 b.files.length)
  have hloop := read_files_loop_enc
      (natToBEBytes 8 (b.message.getD []).length ++ b.message.getD []) hf
  have hmsg := @read_message_enc (b.message.getD []) [] hm
  rw [List.append_nil] at hmsg
  simp [FrameReader.read, read_status, read_protocol_version,
    count_number_of_files, read_files, encFrame, readBytesF_cons, ok_bind,
    hshift, hand, hcount, int_from_bytes_natToBEBytes 8 b.files.length hc,
    hloop, hmsg, List.append_assoc]

/-! ## `SocReader.read_bytes` delivers exactly the stream's first `size`
bytes, however the transport chunks them -/

/-- Core invariant of the `read_bytes` loop: on a stream of non-empty chunks
it returns the first `size` bytes of the flattened stream (with some suffix
left over) when that many are available, and fails with `ConnectionClosed`
(`none`) when the stream is exhausted first.  `fuel ≥ size` renders the
fuel-exhausted branch unreachable. -/
theorem read_bytes_go_spec (buffer_size : Nat) (hbuf : 1 ≤ buffer_size) :
    ∀ fuel size (s : SocStream), size ≤ fuel → (∀ c ∈ s, c ≠ []) →
      (size ≤ s.flatten.length →
        ∃ t, read_bytes_go buffer_size fuel size s =
          some (s.flatten.take size, t)) ∧
      (s.flatten.length < size → read_bytes_go buffer_size fuel size s = none) := by
  intro fuel
  induction fuel with
  | zero =>
    intro size s hsz hne
    have hz : size = 0 := Nat.le_zero.mp hsz
    subst hz
    exact ⟨fun _ => ⟨s, by simp [read_bytes_go]⟩, fun h => by omega⟩
  | succ fuel ih =>
    intro size s hsz hne
    cases size with
    | zero =>
      exact ⟨fun _ => ⟨s, by simp [read_bytes_go]⟩, fun h => by omega⟩
    | succ sz =>
      cases s with
      | nil =>
        constructor
        · intro h; simp at h
        · intro _; simp [read_bytes_go, recv]
      | cons c cs =>
        have hc : c ≠ [] := hne c (List.mem_cons_self c cs)
        have hcs : ∀ x ∈ cs, x ≠ [] :=
          fun x hx => hne x (List.mem_cons_of_mem c hx)
        have hmr1 : 1 ≤ min (sz + 1) buffer_size := le_min (by omega) hbuf
        have hchunk_ne : c.take (min (sz + 1) buffer_size) ≠ [] := by
          rw [Ne, List.take_eq_nil_iff]
          push_neg
          exact ⟨by omega, hc⟩
        have hchlen : (c.take (min (sz + 1) buffer_size)).length =
            min (min (sz + 1) buffer_size) c.length := List.length_take _ _
        have hchpos : 1 ≤ (c.take (min (sz + 1) buffer_size)).length := by
          rw [hchlen]
          have : 1 ≤ c.length := by
            cases c with
            | nil => exact absurd rfl hc
            | cons _ _ => simp
          omega
        have hchle : (c.take (min (sz + 1) buffer_size)).length ≤ sz + 1 := by
          rw [hchlen]; omega
        have hrec : read_bytes_go buffer_size (fuel + 1) (sz + 1) (c :: cs) =
            match read_bytes_go buffer_size fuel
                (sz + 1 - (c.take (min (sz + 1) buffer_size)).length)
                ((recv (c :: cs) (min (sz + 1) buffer_size)).2) with
            | none => none
            | some (rest, t) =>
              some (c.take (min (sz + 1) buffer_size) ++ rest, t) := by
          rw [read_bytes_go]
          simp only [recv, List.isEmpty_eq_true, hchunk_ne, if_false]
        have hs'flat : ((recv (c :: cs) (min (sz + 1) buffer_size)).2).flatten =
            c.drop (min (sz + 1) buffer_size) ++ cs.flatten := by
          simp only [recv]
          by_cases hl : (c.drop (min (sz + 1) buffer_size)).isEmpty
          · have : c.drop (min (sz + 1) buffer_size) = [] :=
              List.isEmpty_iff.mp hl
            simp [hl, this]
          · simp [hl]
        have hs'ne : ∀ x ∈ (recv (c :: cs) (min (sz + 1) buffer_size)).2,
            x ≠ [] := by
          simp only [recv]
          by_cases hl : (c.drop (min (sz + 1) buffer_size)).isEmpty
          · simpa [hl] using hcs
          · intro x hx
            rw [if_neg hl] at hx
            rcases List.mem_cons.mp hx with h | h
            · subst h
              intro hnil
              rw [hnil] at hl
              exact hl rfl
            · exact hcs x h
        have hflat : (c :: cs).flatten =
            c.take (min (sz + 1) buffer_size) ++
              ((recv (c :: cs) (min (sz + 1) buffer_size)).2).flatten := by
          rw [hs'flat, List.flatten_cons, ← List.append_assoc,
            List.take_append_drop]
        have hlen : (c :: cs).flatten.length =
            (c.take (min (sz + 1) buffer_size)).length +
              ((recv (c :: cs) (min (sz + 1) buffer_size)).2).flatten.length := by
          rw [hflat, List.length_append]
        have ihs := ih (sz + 1 - (c.take (min (sz + 1) buffer_size)).length)
          ((recv (c :: cs) (min (sz + 1) buffer_size)).2) (by omega) hs'ne
        constructor
        · intro hle
          obtain ⟨t, hgo⟩ := ihs.1 (by omega)
          refine ⟨t, ?_⟩
          rw [hrec, hgo]
          rw [hflat, List.take_append_eq_append_take,
            List.take_of_length_le hchle]
        · intro hlt
          rw [hrec, ihs.2 (by omega)]

/-- `SocReader.read_bytes` on a live stream (all delivered chunks non-empty):
if at least `size` bytes will arrive it returns exactly the first `size` of
them, regardless of the chunking; otherwise the stream runs out, some `recv`
returns no bytes, and the call fails with `ConnectionClosed` (`none`). -/
theorem read_bytes_spec (max_buffer_size : Nat) (s : SocStream) (size : Nat)
    (hbuf : 1 ≤ max_buffer_size) (hsz : 1 ≤ size) (hne : ∀ c ∈ s, c ≠ []) :
    (size ≤ s.flatten.length →
      ∃ t, read_bytes max_buffer_size s size = some (s.flatten.take size, t)) ∧
    (s.flatten.length < size → read_bytes max_buffer_size s size = none) := by
  have h := read_bytes_go_spec (min size max_buffer_size)
    (le_min hsz hbuf) size size s le_rfl hne
  exact h

/-! ## Shared helper facts -/

/-- Whatever `SocReader.__init__` is given, the effective maximum buffer size
is at least 1 (`None` and `0` are both replaced by the 8 KiB default). -/
theorem socMaxBuffer_pos (o : Option Nat) : 1 ≤ socMaxBuffer o := by
  cases o with
  | none => simp [socMaxBuffer]
  | some v =>
    by_cases h : v = 0
    · simp [socMaxBuffer, h]
    · simp only [socMaxBuffer, if_neg h]
      omega

/-- On every failure path of `FrameReader.read` — bad validity bit, closed
connection at any field, malformed name bytes — `received` is never invoked:
the callback's log of `received` calls is exactly what it was before. -/
theorem read_error_receivedCalls (cb : ResponseCallback) (s : List Nat) :
    (FrameReader.read cb s).2.2 ≠ none →
      (FrameReader.read cb s).1.receivedCalls = cb.receivedCalls := by
  unfold FrameReader.read
  repeat' split
  all_goals simp

/-- Bit 7 of a byte below 128 reads back as 0. -/
theorem shiftRight7_eq_zero {b : Nat} (hb : b < 128) : b >>> 7 = 0 := by
  rw [Nat.shiftRight_eq_div_pow]
  norm_num
  omega

/-- Bit 7 of a byte in 128..255 reads back as 1. -/
theorem shiftRight7_eq_one {b : Nat} (hb1 : 128 ≤ b) (hb2 : b ≤ 255) :
    b >>> 7 = 1 := by
  rw [Nat.shiftRight_eq_div_pow]
  norm_num
  omega

/-! ## C1 — round-trip

The claim as frozen is FALSE on the code: `__add_files__` writes
`len(file.name)` — the number of CHARACTERS of the name — into the 2-byte
name-length field, while the bytes that follow are the UTF-8 encoding of the
name.  For a non-ASCII name (more bytes than characters) the decoder reads
too few bytes, mis-frames the stream, and `bytes.decode()` fails.  The
round-trip does hold for frames whose file names are ASCII-only. -/

/-- C1 (counterexample): a valid frame per the claim — status 0, version 1,
one file named `"é"` (UTF-8 byte length 2 ≤ 65535) with 1 data byte, message
`[2]` — serializes, but feeding the serialized bytes to `FrameReader.read`
raises `UnicodeDecodeError` instead of reproducing the frame; `received` is
never invoked. -/
theorem roundtrip_fails_on_nonascii_name :
    (⟨0, 1, [⟨[233], [1]⟩], some [2]⟩ : BytesBuilder).bytes =
      some [128, 1, 0, 0, 0, 0, 0, 0, 0, 1, 0, 1, 195, 169,
            0, 0, 0, 0, 0, 0, 0, 1, 1, 0, 0, 0, 0, 0, 0, 0, 1, 2] ∧
    (FrameReader.read ⟨0, 0, []⟩
        [128, 1, 0, 0, 0, 0, 0, 0, 0, 1, 0, 1, 195, 169,
         0, 0, 0, 0, 0, 0, 0, 1, 1, 0, 0, 0, 0, 0, 0, 0, 1, 2]).2.2 =
      some .unicodeDecodeError ∧
    (FrameReader.read ⟨0, 0, []⟩
        [128, 1, 0, 0, 0, 0, 0, 0, 0, 1, 0, 1, 195, 169,
         0, 0, 0, 0, 0, 0, 0, 1, 1, 0, 0, 0, 0, 0, 0, 0, 1, 2]).1.receivedCalls =
      [] := by
  refine ⟨rfl, by decide, by decide⟩

/-- C1 (amended): for every frame whose custom status is in [0,127], whose
protocol version is in [0,255], whose file names are ASCII-only with at most
65535 characters, and whose file count, file data lengths and message length
are below 2^64, `bytes()` succeeds and `FrameReader.read` on its output
consumes exactly the frame and hands the callback the same custom status,
the same protocol version, the same files in the same order, and the same
message, absent exactly when the encoded message length was 0. -/
theorem roundtrip_ascii (b : BytesBuilder) (cb : ResponseCallback)
    (hs : 0 ≤ b.status_code) (hs' : b.status_code ≤ 127)
    (hv : 0 ≤ b.protocol_version) (hv' : b.protocol_version ≤ 255)
    (hf : ∀ f ∈ b.files, (∀ c ∈ f.name, c < 128) ∧
      f.name.length ≤ 65535 ∧ f.data.length < 2 ^ 64)
    (hc : b.files.length < 2 ^ 64)
    (hm : (b.message.getD []).length < 2 ^ 64) :
    ∃ out, b.bytes = some out ∧
      FrameReader.read cb out =
        ({ cb with
            custom_status := b.status_code.toNat,
            protocol_version := b.protocol_version.toNat,
            receivedCalls := cb.receivedCalls ++
              [(b.files, if (b.message.getD []).length = 0 then none
                         else some (b.message.getD []))] },
         [], none) := by
  have hpow2 : (256 : Nat) ^ 2 = 65536 := by norm_num
  have hpow8 : (256 : Nat) ^ 8 = 2 ^ 64 := by norm_num
  have hf' : ∀ f ∈ b.files, f.name.length < 256 ^ 2 ∧ f.data.length < 256 ^ 8 := by
    intro f hfm
    obtain ⟨_, h1, h2⟩ := hf f hfm
    omega
  have hfa : ∀ f ∈ b.files, (∀ c ∈ f.name, c < 128) ∧
      f.name.length < 256 ^ 2 ∧ f.data.length < 256 ^ 8 := by
    intro f hfm
    obtain ⟨h0, h1, h2⟩ := hf f hfm
    exact ⟨h0, by omega, by omega⟩
  exact ⟨encFrame b,
    bytes_enc hs hs' hv hv' hf' (by omega) (by omega),
    read_enc cb hs hs' hfa (by omega) (by omega)⟩

/-- C1 (witness): the amended round-trip at a concrete frame — status 5,
version 2, one file `"ab" ↦ [1,2,3]`, message `[9]`. -/
theorem roundtrip_ascii_witness :
    ∃ out, (⟨5, 2, [⟨[97, 98], [1, 2, 3]⟩], some [9]⟩ : BytesBuilder).bytes =
        some out ∧
      FrameReader.read ⟨0, 0, []⟩ out =
        (⟨5, 2, [([⟨[97, 98], [1, 2, 3]⟩], some [9])]⟩, [], none) :=
  roundtrip_ascii ⟨5, 2, [⟨[97, 98], [1, 2, 3]⟩], some [9]⟩ ⟨0, 0, []⟩
    (by decide) (by decide) (by decide) (by decide) (by decide) (by decide)
    (by decide)

/-! ## C2 — range enforcement at construction

The claim is FALSE on the code, and the code contradicts its own comment
("Validate custom status code value based on range") and error message ("The
allowed range is 0 to 127"): the test `status_code >= 0 or status_code <=
127` is true for every integer, so `InvalidStatusCode` is unreachable. -/

/-- C2: evaluating the constructor at the claim's own inputs: both 128 and
-1 are ACCEPTED — no `InvalidStatusCode`, and `bytes()` on the status-128
builder even serializes. -/
theorem init_accepts_out_of_range_status :
    BytesBuilder.init 128 = .ok ⟨128, 1, [], none⟩ ∧
    BytesBuilder.init (-1) = .ok ⟨-1, 1, [], none⟩ ∧
    (⟨128, 1, [], none⟩ : BytesBuilder).bytes =
      some [128, 1, 0, 0, 0, 0, 0, 0, 0, 0, 0, 0, 0, 0, 0, 0, 0, 0] :=
  ⟨rfl, rfl, rfl⟩

/-! ## C3 — both bound checks are vacuous -/

/-- C3: for every integer, the `or`-composed range conditions of
`BytesBuilder.__init__` and `set_protocol_version` hold, so construction
returns a builder with that status and `set_protocol_version` returns the
builder with that version — `InvalidStatusCode` and
`InvalidProtocolVersion` are never raised. -/
theorem status_version_checks_vacuous :
    ∀ (s v : Int) (b : BytesBuilder),
      statusInRange s = true ∧ versionInRange v = true ∧
      BytesBuilder.init s = .ok ⟨s, 1, [], none⟩ ∧
      b.set_protocol_version v = .ok { b with protocol_version := v } := by
  intro s v b
  have h1 : statusInRange s = true := by
    unfold statusInRange
    rcases le_or_lt 0 s with h | h
    · simp [h]
    · have : s ≤ 127 := by omega
      simp [this]
  have h2 : versionInRange v = true := by
    unfold versionInRange
    rcases le_or_lt 0 v with h | h
    · simp [h]
    · have : v ≤ 256 := by omega
      simp [this]
  exact ⟨h1, h2, by simp [BytesBuilder.init, h1],
    by simp [BytesBuilder.set_protocol_version, h2]⟩

/-! ## C4 — `read_bytes` returns exactly the first `n` bytes delivered -/

/-- C4: with any configured buffer size (`socMaxBuffer` yields the 8192
default for `None`), for every `n ≥ 1` and every live stream (all delivered
chunks non-empty, split arbitrarily — one byte at a time included),
`read_bytes` returns precisely the first `n` bytes the stream delivers when
`n` are available; if the stream runs out first — some underlying `recv`
returning zero bytes — it raises `ConnectionClosed` (`none`).  Each
iteration requests `min(remaining, buffer_size)` bytes by construction of
`read_bytes_go`. -/
theorem read_bytes_first_n (opt : Option Nat) (s : SocStream) (n : Nat)
    (hn : 1 ≤ n) (hne : ∀ c ∈ s, c ≠ []) :
    socMaxBuffer none = 8192 ∧
    (n ≤ s.flatten.length →
      ∃ t, read_bytes (socMaxBuffer opt) s n = some (s.flatten.take n, t)) ∧
    (s.flatten.length < n → read_bytes (socMaxBuffer opt) s n = none) := by
  have h := read_bytes_spec (socMaxBuffer opt) s n (socMaxBuffer_pos opt) hn hne
  exact ⟨rfl, h.1, h.2⟩

/-- C4 (witness): 3 bytes delivered as `[1]`, `[2,3]`, `[4]` are read back
as `[1,2,3]`; and the same bytes one at a time, with the stream then closing,
make a 5-byte read fail with `ConnectionClosed`. -/
theorem read_bytes_first_n_witness :
    (∃ t, read_bytes (socMaxBuffer none) [[1], [2, 3], [4]] 3 =
      some ([1, 2, 3], t)) ∧
    read_bytes (socMaxBuffer none) [[1], [2], [3], [4]] 5 = none :=
  ⟨(read_bytes_first_n none [[1], [2, 3], [4]] 3 (by decide)
      (by decide)).2.1 (by decide),
   (read_bytes_first_n none [[1], [2], [3], [4]] 5 (by decide)
      (by decide)).2.2 (by decide)⟩

/-! ## C5 — validity-bit check -/

/-- C5: on any stream whose first byte has bit 7 clear, `FrameReader.read`
raises `ProtocolException` having consumed exactly that first byte — the
rest of the stream is untouched and the callback is not modified, so no
version, file-count, file or message field has been read. -/
theorem read_bad_validity_bit (cb : ResponseCallback) (b : Nat)
    (rest : List Nat) (hb : b < 128) :
    FrameReader.read cb (b :: rest) = (cb, rest, some .protocolException) := by
  simp [FrameReader.read, read_status, readBytesF_cons, ok_bind,
    shiftRight7_eq_zero hb]

/-- C5 (witness): first byte 5 (bit 7 = 0) followed by `[7, 9]`. -/
theorem read_bad_validity_bit_witness :
    FrameReader.read ⟨0, 0, []⟩ [5, 7, 9] =
      (⟨0, 0, []⟩, [7, 9], some .protocolException) :=
  read_bad_validity_bit ⟨0, 0, []⟩ 5 [7, 9] (by decide)

/-! ## C6 — closure after status+version, and all-or-nothing delivery -/

/-- C6: a stream that delivers exactly a valid status byte and a version
byte and then closes makes `FrameReader.read` fail with `ConnectionClosed`
while attempting the 8 file-count bytes; `received` is not invoked — and on
EVERY failure path of `FrameReader.read` (any raised error, any stream) the
`received` log is unchanged: no partial frame is ever delivered. -/
theorem read_closure_no_partial_frame (cb : ResponseCallback) (b v : Nat)
    (hb1 : 128 ≤ b) (hb2 : b ≤ 255) :
    (FrameReader.read cb [b, v]).2.2 = some .connectionClosed ∧
    (FrameReader.read cb [b, v]).1.receivedCalls = cb.receivedCalls ∧
    ∀ (cb' : ResponseCallback) (s : List Nat),
      (FrameReader.read cb' s).2.2 ≠ none →
        (FrameReader.read cb' s).1.receivedCalls = cb'.receivedCalls := by
  refine ⟨?_, ?_, fun cb' s h => read_error_receivedCalls cb' s h⟩ <;>
    simp [FrameReader.read, read_status, read_protocol_version, read_files,
      count_number_of_files, readBytesF_cons, readBytesF, ok_bind, error_bind,
      shiftRight7_eq_one hb1 hb2]

/-- C6 (witness): status byte 130, version byte 7, then closure. -/
theorem read_closure_no_partial_frame_witness :
    (FrameReader.read ⟨0, 0, []⟩ [130, 7]).2.2 = some .connectionClosed ∧
    (FrameReader.read ⟨0, 0, []⟩ [130, 7]).1.receivedCalls = [] :=
  ⟨(read_closure_no_partial_frame ⟨0, 0, []⟩ 130 7 (by decide) (by decide)).1,
   (read_closure_no_partial_frame ⟨0, 0, []⟩ 130 7 (by decide) (by decide)).2.1⟩

/-! ## C7 — the name-length field

The claim is FALSE on the code, and the encoder contradicts its own decoder:
`__add_files__` writes `len(file.name)` — the number of characters — while
`read_file` treats the field as a byte count.  They agree only on ASCII
names. -/

/-- C7: for the one-character name `"é"` (code point 233), the encoder emits
name-length field `[0, 1]` (character count 1) although the UTF-8 encoding
that follows it is 2 bytes long; decoding the resulting frame then reads 1
name byte (the lone lead byte 195) and fails with `UnicodeDecodeError`
instead of recovering the name. -/
theorem name_length_field_counts_chars :
    to_bytes 2 ([233] : List Nat).length = some [0, 1] ∧
    (utf8Encode [233]).length = 2 ∧
    (⟨1, 1, [⟨[233], []⟩], none⟩ : BytesBuilder).bytes =
      some [129, 1, 0, 0, 0, 0, 0, 0, 0, 1, 0, 1, 195, 169,
            0, 0, 0, 0, 0, 0, 0, 0, 0, 0, 0, 0, 0, 0, 0, 0] ∧
    (FrameReader.read ⟨0, 0, []⟩
        [129, 1, 0, 0, 0, 0, 0, 0, 0, 1, 0, 1, 195, 169,
         0, 0, 0, 0, 0, 0, 0, 0, 0, 0, 0, 0, 0, 0, 0, 0]).2.2 =
      some .unicodeDecodeError := by
  refine ⟨rfl, rfl, rfl, by decide⟩

/-! ## C8 — the empty frame -/

/-- C8: a builder constructed with status 0 (default version 1, no files, no
message) serializes to exactly 18 bytes — 1 status + 1 version + 8 file
count + 8 message length — and decoding them yields custom status 0, version
1, zero files and an absent message, with the whole stream consumed. -/
theorem empty_frame_18_bytes :
    BytesBuilder.init 0 = .ok ⟨0, 1, [], none⟩ ∧
    (⟨0, 1, [], none⟩ : BytesBuilder).bytes =
      some [128, 1, 0, 0, 0, 0, 0, 0, 0, 0, 0, 0, 0, 0, 0, 0, 0, 0] ∧
    ([128, 1, 0, 0, 0, 0, 0, 0, 0, 0, 0, 0, 0, 0, 0, 0, 0, 0] :
      List Nat).length = 18 ∧
    FrameReader.read ⟨0, 0, []⟩
        [128, 1, 0, 0, 0, 0, 0, 0, 0, 0, 0, 0, 0, 0, 0, 0, 0, 0] =
      (⟨0, 1, [([], none)]⟩, [], none) := by
  refine ⟨rfl, rfl, rfl, by decide⟩

/-! ## C9 — determinism of `bytes()`

In the source, `bytes()` only reads the builder's four attributes and writes
into a fresh local `bytearray`, so the embedding is a pure function of the
builder record: non-mutation is inherent, and the output is determined by
the four fields alone. -/

/-- C9: `bytes()` depends on nothing but the builder's four fields — two
calls on builders with equal status, version, files and message (in
particular two calls on one unmodified builder) yield byte-identical
output. -/
theorem bytes_deterministic (b b' : BytesBuilder)
    (h1 : b.status_code = b'.status_code)
    (h2 : b.protocol_version = b'.protocol_version)
    (h3 : b.files = b'.files)
    (h4 : b.message = b'.message) :
    b.bytes = b'.bytes := by
  cases b
  cases b'
  simp only at h1 h2 h3 h4
  subst h1 h2 h3 h4
  rfl

/-- C9 (witness): two calls on the unmodified status-20 builder with one
file coincide. -/
theorem bytes_deterministic_witness :
    (⟨20, 1, [⟨[97], [1]⟩], none⟩ : BytesBuilder).bytes =
      (⟨20, 1, [⟨[97], [1]⟩], none⟩ : BytesBuilder).bytes :=
  bytes_deterministic _ _ rfl rfl rfl rfl

/-! ## C10 — failed reads leave the callback partially overwritten -/

/-- C10: once the status byte is read and validated, `FrameReader.read`
assigns `callback.custom_status` BEFORE reading further, and assigns
`callback.protocol_version` as soon as the version byte arrives; if the
stream then closes, the raised `ConnectionClosed` leaves those fields
overwritten with the partial frame's values even though `received` is never
invoked — nothing restores them. -/
theorem read_failure_overwrites_callback (cb : ResponseCallback) (b v : Nat)
    (hb1 : 128 ≤ b) (hb2 : b ≤ 255) :
    ((FrameReader.read cb [b]).1.custom_status = b &&& 0b01111111 ∧
     (FrameReader.read cb [b]).1.protocol_version = cb.protocol_version ∧
     (FrameReader.read cb [b]).1.receivedCalls = cb.receivedCalls ∧
     (FrameReader.read cb [b]).2.2 = some .connectionClosed) ∧
    ((FrameReader.read cb [b, v]).1.custom_status = b &&& 0b01111111 ∧
     (FrameReader.read cb [b, v]).1.protocol_version = v ∧
     (FrameReader.read cb [b, v]).1.receivedCalls = cb.receivedCalls ∧
     (FrameReader.read cb [b, v]).2.2 = some .connectionClosed) := by
  constructor <;>
    refine ⟨?_, ?_, ?_, ?_⟩ <;>
      simp [FrameReader.read, read_status, read_protocol_version, read_files,
        count_number_of_files, readBytesF_cons, readBytesF, ok_bind,
        error_bind, shiftRight7_eq_one hb1 hb2]

/-- C10 (witness): status byte 130 (custom status 2); with the version byte
7 arriving or not. -/
theorem read_failure_overwrites_callback_witness :
    ((FrameReader.read ⟨0, 0, []⟩ [130]).1.custom_status = 2 ∧
     (FrameReader.read ⟨0, 0, []⟩ [130]).1.protocol_version = 0) ∧
    ((FrameReader.read ⟨0, 0, []⟩ [130, 7]).1.custom_status = 2 ∧
     (FrameReader.read ⟨0, 0, []⟩ [130, 7]).1.protocol_version = 7) := by
  have h := read_failure_overwrites_callback ⟨0, 0, []⟩ 130 7
    (by decide) (by decide)
  exact ⟨⟨h.1.1, h.1.2.1⟩, ⟨h.2.1, h.2.2.1⟩⟩

end TejProtoc
